import Mathlib

/-!
Verification of the metrictank Cassandra chunk-store layer.

This file gives a shallow embedding, in Lean 4, of the parts of the
metrictank sources relevant to the chunk persistence pipeline:

* the TTL-to-table router `GetTTLTable` (cassandra store),
* the month-bucketed row-key computation of `insertChunk` / `SearchTable`,
* the writer worker retry loop of `processWriteQueue`,
* the row-decoding and sorting tail of `SearchTable` and the read-queue
  worker `processReadQueue`,
* the msgp (MessagePack) wire encodings of the four Graphite envelope
  types in `api/models/graphite_gen.go`.

Go byte strings are embedded as `List Nat` (each entry one byte), Go
`uint32` values as `Nat` (the operations involved never overflow and the
relevant preconditions keep subtractions non-negative), and Go `int` /
`int64` values as `Int` with explicit two's-complement conversion where
the wire format requires it.  Fallible operations return `Option` or
`Except`.
-/

/-! ### Decimal formatting (the `%d` verb of `fmt.Sprintf`)

`fmt.Sprintf` with the `%d` verb prints a `uint32` in decimal.  We embed
it as a fuel-indexed structural recursion over the digits so that the
kernel can evaluate it; `natToDecF` called with fuel `≥ n` agrees with
the mathematical most-significant-digit-first decimal expansion of `n`.
-/

/-- Digits of `n` in decimal, most significant first, as ASCII byte values
(`0x30`--`0x39`).  `fuel` bounds the recursion depth; it is adequate
whenever `n ≤ fuel` (each division by ten consumes one unit). -/
def natToDecF : Nat → Nat → List Nat
  | 0, n => [48 + n]
  | fuel + 1, n => if n < 10 then [48 + n] else natToDecF fuel (n / 10) ++ [48 + n % 10]

/-- ASCII decimal rendering of a natural number, as produced by the `%d`
verb of `fmt.Sprintf` (e.g. `natToDec 128 = [0x31, 0x32, 0x38]`). -/
def natToDec (n : Nat) : List Nat := natToDecF n n

/-- Reads a decimal ASCII digit string back into the number it denotes;
a left inverse of `natToDec` used to establish its injectivity. -/
def decVal (l : List Nat) : Nat := l.foldl (fun a b => a * 10 + (b - 48)) 0

/-- `fmt.Sprintf` restricted to format strings holding a single `%d`
verb (such as the store's `Table_name_format = "metric_%d"`): the first
occurrence of the two bytes `%d` (`0x25 0x64`) is replaced by the
decimal rendering of `n`; all other bytes are copied verbatim. -/
def sprintfD : List Nat → Nat → List Nat
  | [], _ => []
  | 37 :: 100 :: rest, n => natToDec n ++ rest
  | c :: rest, n => c :: sprintfD rest n

/-- The store's `Table_name_format` constant, the byte string
`"metric_%d"`. -/
def tableNameFormat : List Nat := [109, 101, 116, 114, 105, 99, 95, 37, 100]

/-! ### The TTL-to-table router (`GetTTLTable`)

The Go source computes
`preFactorWindow := uint32(math.Exp2(math.Floor(math.Log2(ttlUnits(ttl)))))`
with `ttlUnits ttl = float64(ttl) / 3600`.  Over the `uint32` domain this
float computation is exact in the following sense, which the embedding
uses directly:

* for `ttl < 3600` the argument of `Log2` lies in `[0, 1)`, so the floor
  of the (possibly `-Inf`) logarithm is `≤ -1`, `Exp2` of it lies in
  `[0, 1/2]`, and the truncating float-to-`uint32` conversion yields `0`;
* for `ttl ≥ 3600`, `⌊log2 (ttl/3600)⌋ = ⌊log2 ⌊ttl/3600⌋⌋` (both sides
  characterize the `k` with `2^k·3600 ≤ ttl < 2^(k+1)·3600`), the
  quantities involved are far enough from the decision boundaries that
  one ulp of float error cannot move the floor (the relative gap is at
  least `1/(2^20·3600) ≫ 2^-53`), and `2^k < 2^32` fits `uint32`.

`log2F` is a fuel-indexed structural version of `⌊log2⌋`, adequate for
`n ≤ fuel`. -/

/-- Floor of the base-2 logarithm, by fueled structural recursion
(`log2F fuel n` is correct whenever `n ≤ fuel`; see `log2F_pow_le` and
`log2F_lt_pow`). -/
def log2F : Nat → Nat → Nat
  | 0, _ => 0
  | fuel + 1, n => if n < 2 then 0 else log2F fuel (n / 2) + 1

/-- `⌊log2 n⌋` (zero for `n = 0`). -/
def floorLog2 (n : Nat) : Nat := log2F n n

/-- `preFactorWindow` of `GetTTLTable`: the largest power of two at most
`ttl` hours, i.e. the exact value of
`uint32(math.Exp2(math.Floor(math.Log2(ttlUnits ttl))))`, which is `0`
when `ttl` is less than one hour. -/
def preFactorWindow (ttl : Nat) : Nat :=
  if ttl < 3600 then 0 else 2 ^ floorLog2 (ttl / 3600)

/-- `ttlTable`: a physical table name plus its compaction window size in
hours, as returned by `GetTTLTable`. -/
structure ttlTable where
  Table : List Nat
  WindowSize : Nat
deriving DecidableEq, Repr

/-- `GetTTLTable` from the cassandra store: routes a TTL (seconds) to a
table named `Sprintf nameFormat preFactorWindow` with window size
`preFactorWindow / windowFactor + 1`. -/
def GetTTLTable (ttl : Nat) (windowFactor : Nat) (nameFormat : List Nat) : ttlTable :=
  let preFactor := preFactorWindow ttl
  { Table := sprintfD nameFormat preFactor
    WindowSize := preFactor / windowFactor + 1 }

/-! ### Month-bucketed row keys -/

/-- `Month_sec = 60*60*24*28`, the row-partitioning quantum. -/
def monthSec : Nat := 60 * 60 * 24 * 28

/-- The row key `fmt.Sprintf("%s_%d", key, t0/Month_sec)` computed by
`insertChunk`: the metric key, an underscore (`0x5f`), then the decimal
month number. -/
def rowKey (key : List Nat) (t0 : Nat) : List Nat :=
  key ++ [95] ++ natToDec (t0 / monthSec)

/-- The `start_month` of `SearchTable`: `start - start % Month_sec`. -/
def startMonth (start : Nat) : Nat := start - start % monthSec

/-- The `end_month` of `SearchTable`: `(end-1) - (end-1) % Month_sec`
(the search validates `start < end` first, so `end ≥ 1`). -/
def endMonth (e : Nat) : Nat := (e - 1) - (e - 1) % monthSec

/-- The row-key accumulation loop of `SearchTable`:
`for month := start_month; month <= end_month; month += Month_sec`
appending `fmt.Sprintf("%s_%d", key, month/Month_sec)` at each step.
`month` is a Go `uint32`, so the increment is computed modulo `2^32`:
when `end_month` is the top month bucket `4_294_080_000`, the increment
wraps around zero and the loop keeps emitting further (phase-shifted)
row keys.  `fuel` bounds the recursion: the iterates of step `Month_sec`
modulo `2^32` are periodic with period `2^32 / gcd(Month_sec, 2^32) =
2^23`, so any terminating run of the Go loop performs fewer than `2^32`
iterations — with fuel `2^32` (as used by `searchRowKeys`) the
fuel-exhaustion branch is unreachable for every run the program
completes. -/
def rowKeysLoop (key : List Nat) : Nat → Nat → Nat → List (List Nat)
  | 0, _, _ => []
  | fuel + 1, month, em =>
    if month ≤ em then
      rowKey key month :: rowKeysLoop key fuel ((month + monthSec) % 4294967296) em
    else []

/-- The full list of row keys queried by `SearchTable` for the range
`[start, e)`. -/
def searchRowKeys (key : List Nat) (start e : Nat) : List (List Nat) :=
  rowKeysLoop key 4294967296 (startMonth start) (endMonth e)

/-! ### The writer worker retry loop (`processWriteQueue`)

A writer worker dequeues one `ChunkWriteRequest` and runs
`for !success { insertChunk ... }`; on failure it increments `save_fail`,
sleeps `100ms * attempts` capped at `2000ms`, increments `attempts` and
retries; on success it calls `cwr.Metric.SyncChunkSaveState(cwr.Chunk.T0)`,
publishes a persist message and increments `save_ok`.  We embed the loop
as the trace of observable events it produces when the storage layer is
instrumented to fail a given finite number of times before the first
success. -/

/-- Observable events of a writer worker processing one chunk write
request. -/
inductive WEvent where
  | insertAttemptFail
  | sleep (ms : Nat)
  | insertOk
  | syncChunkSaveState (t0 : Nat)
  | sendPersistMessage (t0 : Nat)
deriving DecidableEq, Repr

/-- The backoff computed on an insert failure:
`sleepTime := 100 * attempts; if sleepTime > 2000 { sleepTime = 2000 }`. -/
def writeBackoff (attempts : Nat) : Nat :=
  let sleepTime := 100 * attempts
  if sleepTime > 2000 then 2000 else sleepTime

/-- The retry loop of `processWriteQueue` on a single dequeued request,
with `failuresLeft` injected insert failures remaining before the first
success.  `attempts` is the loop's counter (failures already recorded),
starting at `0`. -/
def processChunkWriteRequest (t0 : Nat) : Nat → Nat → List WEvent
  | _, 0 => [.insertOk, .syncChunkSaveState t0, .sendPersistMessage t0]
  | attempts, failuresLeft + 1 =>
    .insertAttemptFail :: .sleep (writeBackoff attempts) ::
      processChunkWriteRequest t0 (attempts + 1) failuresLeft

/-- The event trace of a writer worker handling a chunk with start time
`t0` against a store that fails the first `failures` inserts. -/
def writerTrace (t0 failures : Nat) : List WEvent :=
  processChunkWriteRequest t0 0 failures

/-- The backoff sleeps of a writer trace, in order. -/
def sleepsOf (tr : List WEvent) : List Nat :=
  tr.filterMap fun e =>
    match e with
    | .sleep ms => some ms
    | _ => none

/-! ### Chunk frame decoding and the search result pipeline

`SearchTable` scans the rows `(ts, data)` returned by the store, rejects
any `data` shorter than two bytes, decodes each remaining row with
`chunk.NewGen(data, ts)` and finally sorts the accumulated iterator
generators with `sort.Sort(chunk.IterGensAsc(itgens))`. -/

/-- Error kinds surfaced by the store (named after the `err...` values of
the cassandra store package). -/
inductive StoreErr where
  | chunkTooSmall
  | invalidRange
  | readQueueFull
  | readTooOld
  | tableNotFound
  | ctxCanceled
  | unknownFormat
  | unknownSpanCode
deriving DecidableEq, Repr

/-- Modelled from the spec: the chunk package's registered static span
table `chunk.ChunkSpans` (the chunk package itself is outside the given
sources).  The claims settled here depend only on span-code lookup
validity, not on the particular registered values. -/
def ChunkSpans : List Nat :=
  [1, 5, 10, 15, 20, 30, 60, 90, 120, 300, 600, 900, 1200, 1800, 3600, 7200, 21600, 86400]

/-- The frame format byte `chunk.FormatStandardGoTszWithSpan`. -/
def FormatStandardGoTszWithSpan : Nat := 1

/-- An iterator generator: the stored frame bytes plus the chunk start
time, as produced by `chunk.NewGen(b, ts)`. -/
structure IterGen where
  B : List Nat
  T0 : Nat
deriving DecidableEq, Repr

/-- Modelled from the spec: `chunk.NewGen` (the chunk package is outside
the given sources).  Per spec §4.1/§6 it validates the frame length, the
format byte and — for the span-carrying format — the span code, and
materializes an iterator generator parameterized by `t0` and the frame. -/
def NewGen (b : List Nat) (ts : Nat) : Except StoreErr IterGen :=
  match b with
  | fmtByte :: spanCode :: _ =>
    if fmtByte = FormatStandardGoTszWithSpan then
      if spanCode < ChunkSpans.length then .ok ⟨b, ts⟩
      else .error .unknownSpanCode
    else .error .unknownFormat
  | _ => .error .chunkTooSmall

/-- The row-scan loop of `SearchTable`: each row `(ts, data)` must have
`len(data) ≥ 2` and decode via `NewGen`; the first failure aborts the
whole search, otherwise generators accumulate in scan order. -/
def scanRows : List (Nat × List Nat) → Except StoreErr (List IterGen)
  | [] => .ok []
  | (ts, b) :: rest =>
    if b.length < 2 then .error .chunkTooSmall
    else
      match NewGen b ts with
      | .error e => .error e
      | .ok itgen =>
        match scanRows rest with
        | .error e => .error e
        | .ok tail => .ok (itgen :: tail)

/-- The per-row decode underlying `scanRows`, as a partial function:
`none` exactly when the scan loop would abort on the row. -/
def decodeRow (r : Nat × List Nat) : Option IterGen :=
  if r.2.length < 2 then none
  else
    match NewGen r.2 r.1 with
    | .error _ => none
    | .ok itgen => some itgen

/-- The comparison relation of `chunk.IterGensAsc`: ascending `T0`
(modelled from the spec; the chunk package is outside the given
sources). -/
def leT0 (a b : IterGen) : Prop := a.T0 ≤ b.T0

instance : DecidableRel leT0 := fun a b => Nat.decLe a.T0 b.T0

instance : IsTotal IterGen leT0 := ⟨fun a b => Nat.le_total a.T0 b.T0⟩

instance : IsTrans IterGen leT0 := ⟨fun _ _ _ => Nat.le_trans⟩

/-- Strict `T0` order on iterator generators. -/
def ltT0 (a b : IterGen) : Prop := a.T0 < b.T0

instance : IsAntisymm IterGen ltT0 := ⟨fun _ _ h h' => absurd (Nat.lt_trans h h') (Nat.lt_irrefl _)⟩

/-- `sort.Sort(chunk.IterGensAsc(itgens))`: a comparison sort by the
`Less` relation `T0 < T0` (Go's `sort.Sort` is an arbitrary unstable
comparison sort; its observable contract — a permutation ordered so that
no later element is `Less` than an earlier one — is realized here by
insertion sort under the reflexive closure of `Less`). -/
def sortItgensAsc (l : List IterGen) : List IterGen := List.insertionSort leT0 l

/-- The result-assembly tail of `SearchTable`: scan and decode all rows,
then sort ascending by `T0`. -/
def searchProcessRows (rows : List (Nat × List Nat)) : Except StoreErr (List IterGen) :=
  match scanRows rows with
  | .error e => .error e
  | .ok itgens => .ok (sortItgensAsc itgens)

/-! ### The read-queue worker (`processReadQueue`) and cancellation -/

/-- What a read worker did with one dequeued `ChunkReadRequest`: the
result it sent back on the request's `out` channel, and whether it
executed the store query. -/
structure ReadOutcome where
  result : Except StoreErr (List (Nat × List Nat))
  executedQuery : Bool
deriving Repr

/-- `processReadQueue` handling one dequeued request: if the request's
context is already canceled it reports `errCtxCanceled` without querying;
if the queue wait exceeded `omitReadTimeout` it reports `errReadTooOld`
without querying; otherwise it executes the query (yielding the store's
rows). -/
def processReadRequest (canceledAtDequeue : Bool) (waitDuration omitReadTimeout : Nat)
    (storeRows : List (Nat × List Nat)) : ReadOutcome :=
  if canceledAtDequeue then ⟨.error .ctxCanceled, false⟩
  else if waitDuration > omitReadTimeout then ⟨.error .readTooOld, false⟩
  else ⟨.ok storeRows, true⟩

/-- The tail of `SearchTable` from the point where the worker's result
arrives: `errCtxCanceled` becomes an empty, error-free response, any
other error surfaces, and row lists are decoded and sorted. -/
def searchTableResult (workerResult : Except StoreErr (List (Nat × List Nat))) :
    Except StoreErr (List IterGen) :=
  match workerResult with
  | .error e => if e = .ctxCanceled then .ok [] else .error e
  | .ok rows => searchProcessRows rows

/-- A search whose read request is dequeued by a worker: the worker's
outcome is fed back into `SearchTable`'s result handling. -/
def searchViaWorker (canceledAtDequeue : Bool) (waitDuration omitReadTimeout : Nat)
    (storeRows : List (Nat × List Nat)) : Except StoreErr (List IterGen) :=
  searchTableResult (processReadRequest canceledAtDequeue waitDuration omitReadTimeout storeRows).result

/-! ### MessagePack primitives (the `msgp` library)

`api/models/graphite_gen.go` builds its envelope encodings from the
primitive append/read functions of `github.com/tinylib/msgp/msgp`, an
external collaborator implementing the MessagePack format.  They are
embedded here byte-for-byte from that format: big-endian multi-byte
integers, fixmap/map16/map32 and fixarray/array16/array32 headers,
fixstr/str8/str16/str32 strings, `0xc2`/`0xc3` booleans, and the most
compact signed-integer representation among fixint, negative fixint and
int8/16/32/64 (markers `0xd0`--`0xd3`, two's complement). -/

namespace msgp

/-- Big-endian byte rendering of `n` in exactly `k` bytes (the low
`8*k` bits of `n`, most significant byte first). -/
def beBytes : Nat → Nat → List Nat
  | 0, _ => []
  | k + 1, n => (n / 256 ^ k % 256) :: beBytes k n

/-- Value of a big-endian byte list. -/
def beVal : List Nat → Nat
  | [] => 0
  | b :: bs => b * 256 ^ bs.length + beVal bs

/-- Split off the first `n` bytes, failing if fewer are available. -/
def takeN (n : Nat) (bs : List Nat) : Option (List Nat × List Nat) :=
  if n ≤ bs.length then some (bs.take n, bs.drop n) else none

/-- Read a `k`-byte big-endian unsigned integer. -/
def readN (k : Nat) (bs : List Nat) : Option (Nat × List Nat) :=
  match takeN k bs with
  | some (pre, rest) => some (beVal pre, rest)
  | none => none

/-- `msgp.AppendMapHeader`: fixmap for sizes up to 15, else map16/map32. -/
def AppendMapHeader (n : Nat) : List Nat :=
  if n ≤ 15 then [128 + n]
  else if n ≤ 65535 then 222 :: beBytes 2 n
  else 223 :: beBytes 4 n

/-- `msgp.AppendArrayHeader`: fixarray for sizes up to 15, else
array16/array32. -/
def AppendArrayHeader (n : Nat) : List Nat :=
  if n ≤ 15 then [144 + n]
  else if n ≤ 65535 then 220 :: beBytes 2 n
  else 221 :: beBytes 4 n

/-- `msgp.AppendString`: fixstr, str8, str16 or str32 header followed by
the raw bytes. -/
def AppendString (s : List Nat) : List Nat :=
  if s.length ≤ 31 then (160 + s.length) :: s
  else if s.length ≤ 255 then 217 :: s.length :: s
  else if s.length ≤ 65535 then 218 :: beBytes 2 s.length ++ s
  else 219 :: beBytes 4 s.length ++ s

/-- `msgp.AppendBool`. -/
def AppendBool (b : Bool) : List Nat := [if b then 195 else 194]

/-- The low `k` bits of the two's-complement representation of `i`, as a
natural number. -/
def int2c (k : Nat) (i : Int) : Nat := (i % (2 ^ k : Int)).toNat

/-- Reads a `k`-bit two's-complement value back into an integer. -/
def dec2c (k : Nat) (n : Nat) : Int :=
  if n < 2 ^ (k - 1) then (n : Int) else (n : Int) - 2 ^ k

/-- `msgp.AppendInt64`: the most compact signed representation —
positive fixint, negative fixint, or int8/int16/int32/int64 with markers
`0xd0`/`0xd1`/`0xd2`/`0xd3`. -/
def AppendInt64 (i : Int) : List Nat :=
  if 0 ≤ i then
    if i ≤ 127 then [i.toNat]
    else if i ≤ 32767 then 209 :: beBytes 2 (int2c 16 i)
    else if i ≤ 2147483647 then 210 :: beBytes 4 (int2c 32 i)
    else 211 :: beBytes 8 (int2c 64 i)
  else
    if -32 ≤ i then [int2c 8 i]
    else if -128 ≤ i then [208, int2c 8 i]
    else if -32768 ≤ i then 209 :: beBytes 2 (int2c 16 i)
    else if -2147483648 ≤ i then 210 :: beBytes 4 (int2c 32 i)
    else 211 :: beBytes 8 (int2c 64 i)

/-- `msgp.AppendInt` (Go `int` is 64-bit here). -/
def AppendInt (i : Int) : List Nat := AppendInt64 i

/-- `msgp.ReadMapHeaderBytes`. -/
def ReadMapHeaderBytes (bs : List Nat) : Option (Nat × List Nat) :=
  match bs with
  | [] => none
  | b :: rest =>
    if 128 ≤ b ∧ b ≤ 143 then some (b - 128, rest)
    else if b = 222 then readN 2 rest
    else if b = 223 then readN 4 rest
    else none

/-- `msgp.ReadArrayHeaderBytes`. -/
def ReadArrayHeaderBytes (bs : List Nat) : Option (Nat × List Nat) :=
  match bs with
  | [] => none
  | b :: rest =>
    if 144 ≤ b ∧ b ≤ 159 then some (b - 144, rest)
    else if b = 220 then readN 2 rest
    else if b = 221 then readN 4 rest
    else none

/-- `msgp.ReadStringBytes` (also `ReadStringZC`: the distinction between
copying and zero-copy reads disappears in a pure embedding). -/
def ReadStringBytes (bs : List Nat) : Option (List Nat × List Nat) :=
  match bs with
  | [] => none
  | b :: rest =>
    if 160 ≤ b ∧ b ≤ 191 then takeN (b - 160) rest
    else if b = 217 then
      match rest with
      | l :: rest2 => takeN l rest2
      | [] => none
    else if b = 218 then
      match readN 2 rest with
      | some (l, rest2) => takeN l rest2
      | none => none
    else if b = 219 then
      match readN 4 rest with
      | some (l, rest2) => takeN l rest2
      | none => none
    else none

/-- `msgp.ReadMapKeyZC`: a map key read as a string. -/
def ReadMapKeyZC (bs : List Nat) : Option (List Nat × List Nat) := ReadStringBytes bs

/-- `msgp.ReadBoolBytes`. -/
def ReadBoolBytes (bs : List Nat) : Option (Bool × List Nat) :=
  match bs with
  | 194 :: rest => some (false, rest)
  | 195 :: rest => some (true, rest)
  | _ => none

/-- `msgp.ReadInt64Bytes`: positive fixint, negative fixint, or
int8/int16/int32/int64. -/
def ReadInt64Bytes (bs : List Nat) : Option (Int × List Nat) :=
  match bs with
  | [] => none
  | b :: rest =>
    if b ≤ 127 then some ((b : Int), rest)
    else if 224 ≤ b ∧ b ≤ 255 then some ((b : Int) - 256, rest)
    else if b = 208 then
      match rest with
      | v :: rest2 => some (dec2c 8 v, rest2)
      | [] => none
    else if b = 209 then
      match readN 2 rest with
      | some (v, rest2) => some (dec2c 16 v, rest2)
      | none => none
    else if b = 210 then
      match readN 4 rest with
      | some (v, rest2) => some (dec2c 32 v, rest2)
      | none => none
    else if b = 211 then
      match readN 8 rest with
      | some (v, rest2) => some (dec2c 64 v, rest2)
      | none => none
    else none

/-- `msgp.ReadIntBytes` (Go `int` is 64-bit here). -/
def ReadIntBytes (bs : List Nat) : Option (Int × List Nat) := ReadInt64Bytes bs

/-- `msgp.Skip` worker: skip `count` MessagePack objects, with `fuel`
bounding recursion depth (adequate when `fuel > length bs`, since every
step consumes at least one byte). -/
def skipN : Nat → Nat → List Nat → Option (List Nat)
  | 0, _, _ => none
  | _ + 1, 0, bs => some bs
  | fuel + 1, cnt + 1, bs =>
    match bs with
    | [] => none
    | b :: rest =>
      if b ≤ 127 ∨ 224 ≤ b ∨ b = 192 ∨ b = 194 ∨ b = 195 then skipN fuel cnt rest
      else if b = 204 ∨ b = 208 then
        match takeN 1 rest with
        | some (_, r) => skipN fuel cnt r
        | none => none
      else if b = 205 ∨ b = 209 then
        match takeN 2 rest with
        | some (_, r) => skipN fuel cnt r
        | none => none
      else if b = 206 ∨ b = 210 ∨ b = 202 then
        match takeN 4 rest with
        | some (_, r) => skipN fuel cnt r
        | none => none
      else if b = 207 ∨ b = 211 ∨ b = 203 then
        match takeN 8 rest with
        | some (_, r) => skipN fuel cnt r
        | none => none
      else if 160 ≤ b ∧ b ≤ 191 then
        match takeN (b - 160) rest with
        | some (_, r) => skipN fuel cnt r
        | none => none
      else if b = 217 ∨ b = 196 then
        match rest with
        | l :: r0 =>
          match takeN l r0 with
          | some (_, r) => skipN fuel cnt r
          | none => none
        | [] => none
      else if b = 218 ∨ b = 197 then
        match readN 2 rest with
        | some (l, r0) =>
          match takeN l r0 with
          | some (_, r) => skipN fuel cnt r
          | none => none
        | none => none
      else if b = 219 ∨ b = 198 then
        match readN 4 rest with
        | some (l, r0) =>
          match takeN l r0 with
          | some (_, r) => skipN fuel cnt r
          | none => none
        | none => none
      else if 144 ≤ b ∧ b ≤ 159 then skipN fuel (cnt + (b - 144)) rest
      else if b = 220 then
        match readN 2 rest with
        | some (l, r) => skipN fuel (cnt + l) r
        | none => none
      else if b = 221 then
        match readN 4 rest with
        | some (l, r) => skipN fuel (cnt + l) r
        | none => none
      else if 128 ≤ b ∧ b ≤ 143 then skipN fuel (cnt + 2 * (b - 128)) rest
      else if b = 222 then
        match readN 2 rest with
        | some (l, r) => skipN fuel (cnt + 2 * l) r
        | none => none
      else if b = 223 then
        match readN 4 rest with
        | some (l, r) => skipN fuel (cnt + 2 * l) r
        | none => none
      else none

/-- `msgp.Skip`: skip one MessagePack object. -/
def Skip (bs : List Nat) : Option (List Nat) := skipN (bs.length + 1) 1 bs

end msgp

/-! ### The four Graphite envelope types (`api/models/graphite_gen.go`)

Go strings are byte lists; the Go map `Peers map[string]int` is embedded
as its association list in the (arbitrary but fixed) order the encoder's
range loop visits it, which a decode faithfully reproduces. -/

/-- `GraphiteTagDelSeries`: a tag-deletion request. -/
structure GraphiteTagDelSeries where
  Paths : List (List Nat)
  Propagate : Bool
deriving DecidableEq, Repr

/-- `GraphiteTagDelSeries.MarshalMsg`: fixmap of size 2 with literal keys
`"Paths"` (an array of strings) and `"Propagate"` (a bool). -/
def GraphiteTagDelSeries.MarshalMsg (z : GraphiteTagDelSeries) : List Nat :=
  [130, 165, 80, 97, 116, 104, 115]
  ++ msgp.AppendArrayHeader z.Paths.length
  ++ (z.Paths.map msgp.AppendString).flatten
  ++ [169, 80, 114, 111, 112, 97, 103, 97, 116, 101]
  ++ msgp.AppendBool z.Propagate

/-- The string-array read loop of the `"Paths"` case. -/
def readStrings : Nat → List Nat → Option (List (List Nat) × List Nat)
  | 0, bs => some ([], bs)
  | n + 1, bs =>
    match msgp.ReadStringBytes bs with
    | some (s, bs1) =>
      match readStrings n bs1 with
      | some (ss, bs2) => some (s :: ss, bs2)
      | none => none
    | none => none

/-- The field-dispatch loop of `GraphiteTagDelSeries.UnmarshalMsg`:
`n` remaining map entries, each a key followed by its value; known keys
update the corresponding field, unknown keys are skipped. -/
def GraphiteTagDelSeries.unmarshalFields :
    Nat → GraphiteTagDelSeries → List Nat → Option (GraphiteTagDelSeries × List Nat)
  | 0, z, bs => some (z, bs)
  | n + 1, z, bs =>
    match msgp.ReadMapKeyZC bs with
    | none => none
    | some (field, bs1) =>
      if field = [80, 97, 116, 104, 115] then
        match msgp.ReadArrayHeaderBytes bs1 with
        | none => none
        | some (m, bs2) =>
          match readStrings m bs2 with
          | none => none
          | some (paths, bs3) => unmarshalFields n { z with Paths := paths } bs3
      else if field = [80, 114, 111, 112, 97, 103, 97, 116, 101] then
        match msgp.ReadBoolBytes bs1 with
        | none => none
        | some (p, bs2) => unmarshalFields n { z with Propagate := p } bs2
      else
        match msgp.Skip bs1 with
        | none => none
        | some bs2 => unmarshalFields n z bs2

/-- `GraphiteTagDelSeries.UnmarshalMsg`: read the map header, then the
fields; returns the decoded value and the unread remainder. -/
def GraphiteTagDelSeries.UnmarshalMsg (z : GraphiteTagDelSeries) (bs : List Nat) :
    Option (GraphiteTagDelSeries × List Nat) :=
  match msgp.ReadMapHeaderBytes bs with
  | none => none
  | some (n, bs1) => GraphiteTagDelSeries.unmarshalFields n z bs1

/-- `GraphiteTagDelSeriesResp`: a tag-deletion response. -/
structure GraphiteTagDelSeriesResp where
  Count : Int
  Peers : List (List Nat × Int)
deriving DecidableEq, Repr

/-- `GraphiteTagDelSeriesResp.MarshalMsg`: fixmap of size 2 with literal
keys `"Count"` (an int) and `"Peers"` (a map string → int). -/
def GraphiteTagDelSeriesResp.MarshalMsg (z : GraphiteTagDelSeriesResp) : List Nat :=
  [130, 165, 67, 111, 117, 110, 116]
  ++ msgp.AppendInt z.Count
  ++ [165, 80, 101, 101, 114, 115]
  ++ msgp.AppendMapHeader z.Peers.length
  ++ (z.Peers.map (fun p => msgp.AppendString p.1 ++ msgp.AppendInt p.2)).flatten

/-- The peer-map read loop of the `"Peers"` case (the Go code clears or
allocates the map, then inserts each decoded pair). -/
def readPeers : Nat → List Nat → Option (List (List Nat × Int) × List Nat)
  | 0, bs => some ([], bs)
  | n + 1, bs =>
    match msgp.ReadStringBytes bs with
    | none => none
    | some (k, bs1) =>
      match msgp.ReadIntBytes bs1 with
      | none => none
      | some (v, bs2) =>
        match readPeers n bs2 with
        | none => none
        | some (ps, bs3) => some ((k, v) :: ps, bs3)

/-- The field-dispatch loop of `GraphiteTagDelSeriesResp.UnmarshalMsg`. -/
def GraphiteTagDelSeriesResp.unmarshalFields :
    Nat → GraphiteTagDelSeriesResp → List Nat → Option (GraphiteTagDelSeriesResp × List Nat)
  | 0, z, bs => some (z, bs)
  | n + 1, z, bs =>
    match msgp.ReadMapKeyZC bs with
    | none => none
    | some (field, bs1) =>
      if field = [67, 111, 117, 110, 116] then
        match msgp.ReadIntBytes bs1 with
        | none => none
        | some (c, bs2) => unmarshalFields n { z with Count := c } bs2
      else if field = [80, 101, 101, 114, 115] then
        match msgp.ReadMapHeaderBytes bs1 with
        | none => none
        | some (m, bs2) =>
          match readPeers m bs2 with
          | none => none
          | some (ps, bs3) => unmarshalFields n { z with Peers := ps } bs3
      else
        match msgp.Skip bs1 with
        | none => none
        | some bs2 => unmarshalFields n z bs2

/-- `GraphiteTagDelSeriesResp.UnmarshalMsg`. -/
def GraphiteTagDelSeriesResp.UnmarshalMsg (z : GraphiteTagDelSeriesResp) (bs : List Nat) :
    Option (GraphiteTagDelSeriesResp × List Nat) :=
  match msgp.ReadMapHeaderBytes bs with
  | none => none
  | some (n, bs1) => GraphiteTagDelSeriesResp.unmarshalFields n z bs1

/-- `SeriesPickleItem`: one series-metadata entry. -/
structure SeriesPickleItem where
  Path : List Nat
  IsLeaf : Bool
  Intervals : List (List Int)
deriving DecidableEq, Repr

/-- `SeriesPickleItem.MarshalMsg`: fixmap of size 3 with literal keys
`"path"` (string), `"isLeaf"` (bool) and `"intervals"` (array of arrays
of int64). -/
def SeriesPickleItem.MarshalMsg (z : SeriesPickleItem) : List Nat :=
  [131, 164, 112, 97, 116, 104]
  ++ msgp.AppendString z.Path
  ++ [166, 105, 115, 76, 101, 97, 102]
  ++ msgp.AppendBool z.IsLeaf
  ++ [169, 105, 110, 116, 101, 114, 118, 97, 108, 115]
  ++ msgp.AppendArrayHeader z.Intervals.length
  ++ (z.Intervals.map
      (fun iv => msgp.AppendArrayHeader iv.length ++ (iv.map msgp.AppendInt64).flatten)).flatten

/-- The inner int64-array read loop of the `"intervals"` case. -/
def readInts : Nat → List Nat → Option (List Int × List Nat)
  | 0, bs => some ([], bs)
  | n + 1, bs =>
    match msgp.ReadInt64Bytes bs with
    | none => none
    | some (i, bs1) =>
      match readInts n bs1 with
      | none => none
      | some (is, bs2) => some (i :: is, bs2)

/-- The outer read loop of the `"intervals"` case: each element is an
array header followed by that many int64s. -/
def readIntervals : Nat → List Nat → Option (List (List Int) × List Nat)
  | 0, bs => some ([], bs)
  | n + 1, bs =>
    match msgp.ReadArrayHeaderBytes bs with
    | none => none
    | some (m, bs1) =>
      match readInts m bs1 with
      | none => none
      | some (iv, bs2) =>
        match readIntervals n bs2 with
        | none => none
        | some (ivs, bs3) => some (iv :: ivs, bs3)

/-- The field-dispatch loop of `SeriesPickleItem.UnmarshalMsg`. -/
def SeriesPickleItem.unmarshalFields :
    Nat → SeriesPickleItem → List Nat → Option (SeriesPickleItem × List Nat)
  | 0, z, bs => some (z, bs)
  | n + 1, z, bs =>
    match msgp.ReadMapKeyZC bs with
    | none => none
    | some (field, bs1) =>
      if field = [112, 97, 116, 104] then
        match msgp.ReadStringBytes bs1 with
        | none => none
        | some (p, bs2) => unmarshalFields n { z with Path := p } bs2
      else if field = [105, 115, 76, 101, 97, 102] then
        match msgp.ReadBoolBytes bs1 with
        | none => none
        | some (l, bs2) => unmarshalFields n { z with IsLeaf := l } bs2
      else if field = [105, 110, 116, 101, 114, 118, 97, 108, 115] then
        match msgp.ReadArrayHeaderBytes bs1 with
        | none => none
        | some (m, bs2) =>
          match readIntervals m bs2 with
          | none => none
          | some (ivs, bs3) => unmarshalFields n { z with Intervals := ivs } bs3
      else
        match msgp.Skip bs1 with
        | none => none
        | some bs2 => unmarshalFields n z bs2

/-- `SeriesPickleItem.UnmarshalMsg`. -/
def SeriesPickleItem.UnmarshalMsg (z : SeriesPickleItem) (bs : List Nat) :
    Option (SeriesPickleItem × List Nat) :=
  match msgp.ReadMapHeaderBytes bs with
  | none => none
  | some (n, bs1) => SeriesPickleItem.unmarshalFields n z bs1

/-- `SeriesPickle`: an ordered collection of series-metadata entries. -/
abbrev SeriesPickle : Type := List SeriesPickleItem

/-- `SeriesPickle.MarshalMsg`: an array header followed by each item's
encoding. -/
def SeriesPickle.MarshalMsg (z : SeriesPickle) : List Nat :=
  msgp.AppendArrayHeader z.length ++ (z.map SeriesPickleItem.MarshalMsg).flatten

/-- The item read loop of `SeriesPickle.UnmarshalMsg`; decoded items
start from the zero `SeriesPickleItem` (the freshly allocated slice of
the decode path). -/
def readItems : Nat → List Nat → Option (List SeriesPickleItem × List Nat)
  | 0, bs => some ([], bs)
  | n + 1, bs =>
    match SeriesPickleItem.UnmarshalMsg ⟨[], false, []⟩ bs with
    | none => none
    | some (it, bs1) =>
      match readItems n bs1 with
      | none => none
      | some (its, bs2) => some (it :: its, bs2)

/-- `SeriesPickle.UnmarshalMsg`. -/
def SeriesPickle.UnmarshalMsg (_z : SeriesPickle) (bs : List Nat) :
    Option (SeriesPickle × List Nat) :=
  match msgp.ReadArrayHeaderBytes bs with
  | none => none
  | some (n, bs1) => readItems n bs1

/-! ### Validity of envelope values

The encoders write every collection length as a `uint32` header and every
integer as an int64, so a value round-trips when its lengths fit in 32
bits and its integers in 64; the byte *contents* of strings pass through
untouched and need no constraint. -/

/-- `i` fits a signed 64-bit integer. -/
def int64Range (i : Int) : Prop := -(2 ^ 63) ≤ i ∧ i < 2 ^ 63

instance : DecidablePred int64Range := fun i => by unfold int64Range; infer_instance

/-- A valid tag-deletion request: collection lengths fit `uint32`. -/
def GraphiteTagDelSeries.Valid (z : GraphiteTagDelSeries) : Prop :=
  z.Paths.length < 2 ^ 32 ∧ ∀ s ∈ z.Paths, s.length < 2 ^ 32

instance : DecidablePred GraphiteTagDelSeries.Valid := fun z => by
  unfold GraphiteTagDelSeries.Valid; infer_instance

/-- A valid tag-deletion response: the count and the peer counts fit
int64, lengths fit `uint32`. -/
def GraphiteTagDelSeriesResp.Valid (z : GraphiteTagDelSeriesResp) : Prop :=
  int64Range z.Count ∧ z.Peers.length < 2 ^ 32 ∧
    ∀ p ∈ z.Peers, p.1.length < 2 ^ 32 ∧ int64Range p.2

instance : DecidablePred GraphiteTagDelSeriesResp.Valid := fun z => by
  unfold GraphiteTagDelSeriesResp.Valid; infer_instance

/-- A valid series-metadata entry: lengths fit `uint32`, interval bounds
fit int64. -/
def SeriesPickleItem.Valid (z : SeriesPickleItem) : Prop :=
  z.Path.length < 2 ^ 32 ∧ z.Intervals.length < 2 ^ 32 ∧
    ∀ iv ∈ z.Intervals, iv.length < 2 ^ 32 ∧ ∀ i ∈ iv, int64Range i

instance : DecidablePred SeriesPickleItem.Valid := fun z => by
  unfold SeriesPickleItem.Valid; infer_instance

/-- A valid series-metadata collection: its length fits `uint32` and all
entries are valid. -/
def SeriesPickle.Valid (z : SeriesPickle) : Prop :=
  z.length < 2 ^ 32 ∧ ∀ it ∈ z, it.Valid

instance : DecidablePred SeriesPickle.Valid := fun z => by
  unfold SeriesPickle.Valid; infer_instance

/-! ## Theorems -/

/-! ### Decimal rendering: left inverse and injectivity -/

/-- With adequate fuel, `decVal` undoes `natToDecF`. -/
theorem decVal_natToDecF : ∀ fuel n, n ≤ fuel → decVal (natToDecF fuel n) = n := by
  intro fuel
  induction fuel with
  | zero =>
    intro n hn
    interval_cases n
    decide
  | succ f ih =>
    intro n hn
    by_cases h10 : n < 10
    · simp only [natToDecF, if_pos h10, decVal, List.foldl]
      omega
    · simp only [natToDecF, if_neg h10]
      have hrec : n / 10 ≤ f := by omega
      have := ih (n / 10) hrec
      simp only [decVal] at this ⊢
      rw [List.foldl_append, this]
      simp only [List.foldl]
      omega

/-- `decVal` is a left inverse of `natToDec`. -/
theorem decVal_natToDec (n : Nat) : decVal (natToDec n) = n :=
  decVal_natToDecF n n (Nat.le_refl n)

/-- The decimal rendering is injective. -/
theorem natToDec_injective {a b : Nat} (h : natToDec a = natToDec b) : a = b := by
  have ha := decVal_natToDec a
  have hb := decVal_natToDec b
  rw [h] at ha
  omega

/-! ### The fueled base-2 logarithm -/

/-- With adequate fuel, `log2F` satisfies the floor-log sandwich. -/
theorem log2F_spec : ∀ fuel n, n ≤ fuel → 1 ≤ n →
    2 ^ log2F fuel n ≤ n ∧ n < 2 ^ (log2F fuel n + 1) := by
  intro fuel
  induction fuel with
  | zero => intro n h1 h2; omega
  | succ f ih =>
    intro n hn h1
    by_cases h2 : n < 2
    · simp only [log2F, if_pos h2]
      omega
    · simp only [log2F, if_neg h2]
      have hrec : n / 2 ≤ f := by omega
      have h1' : 1 ≤ n / 2 := by omega
      obtain ⟨hlo, hhi⟩ := ih (n / 2) hrec h1'
      constructor
      · calc 2 ^ (log2F f (n / 2) + 1) = 2 * 2 ^ log2F f (n / 2) := by ring
        _ ≤ 2 * (n / 2) := by omega
        _ ≤ n := by omega
      · have : n / 2 + 1 ≤ 2 ^ (log2F f (n / 2) + 1) := hhi
        calc n < 2 * (n / 2 + 1) := by omega
        _ ≤ 2 * 2 ^ (log2F f (n / 2) + 1) := by omega
        _ = 2 ^ (log2F f (n / 2) + 1 + 1) := by ring

/-- `floorLog2` is characterized by the power-of-two sandwich. -/
theorem floorLog2_eq {k n : Nat} (hlo : 2 ^ k ≤ n) (hhi : n < 2 ^ (k + 1)) :
    floorLog2 n = k := by
  have h1 : 1 ≤ n := le_trans (Nat.one_le_two_pow) hlo
  obtain ⟨slo, shi⟩ := log2F_spec n n (Nat.le_refl n) h1
  have hL : log2F n n < k + 1 := by
    have := lt_of_le_of_lt slo hhi
    exact (Nat.pow_lt_pow_iff_right (by omega)).mp this
  have hk : k < log2F n n + 1 := by
    have := lt_of_le_of_lt hlo shi
    exact (Nat.pow_lt_pow_iff_right (by omega)).mp this
  unfold floorLog2
  omega

/-- `preFactorWindow` is constant on each power-of-two hour bucket. -/
theorem preFactorWindow_bucket {k ttl : Nat} (hlo : 2 ^ k * 3600 ≤ ttl)
    (hhi : ttl < 2 ^ (k + 1) * 3600) : preFactorWindow ttl = 2 ^ k := by
  have h3600 : ¬ ttl < 3600 := by
    have : 1 ≤ 2 ^ k := Nat.one_le_two_pow
    omega
  unfold preFactorWindow
  rw [if_neg h3600]
  congr 1
  apply floorLog2_eq
  · exact (Nat.le_div_iff_mul_le (by omega)).mpr hlo
  · exact Nat.div_lt_of_lt_mul (by omega)

/-! ### Row-key equality -/

/-- Two chunks of the same metric share a row key exactly when they fall
in the same month bucket. -/
theorem rowKey_eq_iff (key : List Nat) (a b : Nat) :
    rowKey key a = rowKey key b ↔ a / monthSec = b / monthSec := by
  constructor
  · intro h
    unfold rowKey at h
    rw [List.append_assoc, List.append_assoc] at h
    have h2 := List.append_cancel_left h
    have h3 : natToDec (a / monthSec) = natToDec (b / monthSec) := by
      simpa using h2
    exact natToDec_injective h3
  · intro h
    unfold rowKey
    rw [h]

/-- The month-quotient arithmetic underlying row-key locality: for a
span-aligned `t0` (with the span dividing `Month_sec`), stepping back one
span stays in the same month bucket exactly when `t0` is not
month-aligned. -/
theorem month_quotient_step {span t0 : Nat} (hspan : 0 < span)
    (hdvd : monthSec % span = 0) (ht : span ∣ t0) (hle : span ≤ t0) :
    t0 / monthSec = (t0 - span) / monthSec ↔ t0 % monthSec ≠ 0 := by
  have hMval : monthSec = 2419200 := rfl
  have hspanM : span ≤ monthSec :=
    Nat.le_of_dvd (by rw [hMval]; omega) (Nat.dvd_of_mod_eq_zero hdvd)
  rw [hMval] at hspanM ⊢
  constructor
  · -- same bucket → not month-aligned: if t0 were month-aligned, stepping
    -- back by span ∈ [1, monthSec] would land in the previous bucket
    intro heq hr0
    omega
  · -- not month-aligned → same bucket: the remainder is a positive
    -- multiple of span, so at least span, and stepping back stays put
    intro hr0
    have hrdvd : span ∣ t0 % 2419200 := by
      have h1 : span ∣ (2419200 : Nat) := by
        rw [← hMval]
        exact Nat.dvd_of_mod_eq_zero hdvd
      have h2 : span ∣ 2419200 * (t0 / 2419200) := Dvd.dvd.mul_right h1 _
      have h3 : t0 % 2419200 = t0 - 2419200 * (t0 / 2419200) := by omega
      rw [h3]
      exact Nat.dvd_sub' ht h2
    have hrspan : span ≤ t0 % 2419200 := Nat.le_of_dvd (by omega) hrdvd
    omega

/-! ### The search row-key loop -/

/-- One iteration of the row-key loop while the month is in range; the
increment is computed modulo `2^32` as in the source's `uint32`
arithmetic. -/
theorem rowKeysLoop_step {month em : Nat} (key : List Nat) (fuel : Nat) (h : month ≤ em) :
    rowKeysLoop key (fuel + 1) month em =
      rowKey key month :: rowKeysLoop key fuel ((month + monthSec) % 4294967296) em := by
  simp [rowKeysLoop, h]

/-- The row-key loop stops once the month passes `end_month`. -/
theorem rowKeysLoop_stop {month em : Nat} (key : List Nat) (fuel : Nat) (h : ¬ month ≤ em) :
    rowKeysLoop key fuel month em = [] := by
  cases fuel with
  | zero => rfl
  | succ f => simp [rowKeysLoop, h]

/-- On the non-wrapping domain — `end_month + Month_sec < 2^32`, so the
`uint32` increment never wraps — and with adequate fuel, the row-key
loop materializes exactly the arithmetic progression of months from its
start to `end_month` in `Month_sec` steps. -/
theorem rowKeysLoop_eq : ∀ n fuel month em key, month ≤ em → (em - month) / monthSec = n →
    em + monthSec < 4294967296 → n + 1 ≤ fuel →
    rowKeysLoop key fuel month em =
      (List.range (n + 1)).map (fun i => rowKey key (month + monthSec * i)) := by
  intro n
  have hM : monthSec = 2419200 := rfl
  induction n with
  | zero =>
    intro fuel month em key h1 h2 hcap hfuel
    rw [hM] at h2 hcap
    obtain ⟨f, rfl⟩ : ∃ f, fuel = f + 1 := ⟨fuel - 1, by omega⟩
    have hmod : (month + monthSec) % 4294967296 = month + monthSec := by
      rw [hM]
      omega
    have hstop : ¬ (month + monthSec ≤ em) := by rw [hM]; omega
    rw [rowKeysLoop_step key f h1, hmod, rowKeysLoop_stop key f hstop]
    simp [List.range_succ]
  | succ n ih =>
    intro fuel month em key h1 h2 hcap hfuel
    rw [hM] at h2
    obtain ⟨f, rfl⟩ : ∃ f, fuel = f + 1 := ⟨fuel - 1, by omega⟩
    have hmod : (month + monthSec) % 4294967296 = month + monthSec := by
      rw [hM] at hcap ⊢
      omega
    have hstep : month + monthSec ≤ em := by rw [hM]; omega
    have hrec : (em - (month + monthSec)) / monthSec = n := by rw [hM]; omega
    rw [rowKeysLoop_step key f h1, hmod,
      ih f (month + monthSec) em key hstep hrec hcap (by omega)]
    conv_rhs => rw [List.range_succ_eq_map, List.map_cons, List.map_map]
    refine List.cons_eq_cons.mpr ⟨by simp, ?_⟩
    apply List.map_congr_left
    intro i _
    simp only [Function.comp_apply, Nat.succ_eq_add_one]
    have hx : month + monthSec + monthSec * i = month + monthSec * (i + 1) := by ring
    rw [hx]

/-! ### Claim theorems: TTL routing and row keys -/

/-- C3: for every metric key and every `t0` that is a multiple of `span`
with `t0 ≥ span`, when `Month_sec mod span == 0`, the row key of the
chunk at `t0` equals the row key of the chunk at `t0 - span` iff
`t0 mod Month_sec ≠ 0`. -/
theorem rowkey_locality (key : List Nat) (span t0 : Nat) (hspan : 0 < span)
    (hdvd : monthSec % span = 0) (ht : span ∣ t0) (hle : span ≤ t0) :
    (rowKey key t0 = rowKey key (t0 - span) ↔ t0 % monthSec ≠ 0) := by
  rw [rowKey_eq_iff]
  exact month_quotient_step hspan hdvd ht hle

/-- Witness for C3 at `key = "f"`, `span = 600`, `t0 = 2419800`. -/
theorem rowkey_locality_witness :
    rowKey [102] 2419800 = rowKey [102] (2419800 - 600) ↔ 2419800 % monthSec ≠ 0 :=
  rowkey_locality [102] 600 2419800 (by decide) (by decide) (by decide) (by decide)

/-- C4 counterexample: `GetTTLTable 0 20 "metric_%d"` does **not** use
`preFactor = 1`; its table is `"metric_0"`, not `format(nameFormat, 1)`. -/
theorem ttl_zero_counterexample :
    GetTTLTable 0 20 tableNameFormat ≠
      { Table := sprintfD tableNameFormat 1, WindowSize := 1 / 20 + 1 } := by
  decide

/-- C4 (amended): for TTL `0` the computed `preFactorWindow` is `0`
(`uint32(Exp2(Floor(Log2 0))) = uint32(Exp2 -Inf) = 0`), so for every
`windowFactor ≥ 1` and name format the router returns table
`format(nameFormat, 0)` and window size `0 / windowFactor + 1 = 1`. -/
theorem ttl_zero_routing (windowFactor : Nat) (fmt : List Nat) (h : 1 ≤ windowFactor) :
    GetTTLTable 0 windowFactor fmt = { Table := sprintfD fmt 0, WindowSize := 1 } := by
  unfold GetTTLTable preFactorWindow
  simp

/-- Witness for the amended C4 at `windowFactor = 20` and the default
name format. -/
theorem ttl_zero_routing_witness :
    GetTTLTable 0 20 tableNameFormat = { Table := sprintfD tableNameFormat 0, WindowSize := 1 } :=
  ttl_zero_routing 20 tableNameFormat (by decide)

/-- C5: any two TTLs in the same power-of-two hour bucket
`[2^k·3600, 2^(k+1)·3600)` are routed to the same table name. -/
theorem ttl_routing_stability (k ttl1 ttl2 windowFactor : Nat) (fmt : List Nat)
    (h1lo : 2 ^ k * 3600 ≤ ttl1) (h1hi : ttl1 < 2 ^ (k + 1) * 3600)
    (h2lo : 2 ^ k * 3600 ≤ ttl2) (h2hi : ttl2 < 2 ^ (k + 1) * 3600) :
    (GetTTLTable ttl1 windowFactor fmt).Table = (GetTTLTable ttl2 windowFactor fmt).Table := by
  unfold GetTTLTable
  rw [preFactorWindow_bucket h1lo h1hi, preFactorWindow_bucket h2lo h2hi]

/-- Witness for C5 at `k = 0`: one hour and `7199s` share a table. -/
theorem ttl_routing_stability_witness :
    (GetTTLTable 3600 20 tableNameFormat).Table = (GetTTLTable 7199 20 tableNameFormat).Table :=
  ttl_routing_stability 0 3600 7199 20 tableNameFormat
    (by decide) (by decide) (by decide) (by decide)

/-- C6 (scenario S1): with `windowFactor = 20` and format `"metric_%d"`,
`ttl = 3600` routes to `{table: "metric_1", windowSize: 1}` and
`ttl = 604800` (168 h) has `preFactor = 128` and routes to
`{table: "metric_128", windowSize: 7}`. -/
theorem ttl_routing_scenario :
    GetTTLTable 3600 20 tableNameFormat =
      { Table := [109, 101, 116, 114, 105, 99, 95, 49], WindowSize := 1 } ∧
    preFactorWindow 604800 = 128 ∧
    GetTTLTable 604800 20 tableNameFormat =
      { Table := [109, 101, 116, 114, 105, 99, 95, 49, 50, 56], WindowSize := 7 } := by
  refine ⟨by decide, by decide, by decide⟩

/-- C10: a nonzero TTL below one hour has `preFactorWindow = 0` (the
float pipeline computes `Exp2` of a negative floor, which truncates to
zero), so the router returns table `format(nameFormat, 0)` — `"metric_0"`
under the default format — and window size `1`, for every
`windowFactor ≥ 1`. -/
theorem subhour_ttl_routing (ttl windowFactor : Nat) (fmt : List Nat)
    (h0 : 0 < ttl) (h1 : ttl < 3600) (h2 : 1 ≤ windowFactor) :
    GetTTLTable ttl windowFactor fmt = { Table := sprintfD fmt 0, WindowSize := 1 } ∧
    (GetTTLTable ttl windowFactor tableNameFormat).Table = [109, 101, 116, 114, 105, 99, 95, 48] := by
  unfold GetTTLTable preFactorWindow
  rw [if_pos h1]
  constructor
  · simp
  · show sprintfD tableNameFormat 0 = [109, 101, 116, 114, 105, 99, 95, 48]
    decide

/-- Witness for C10 at `ttl = 1800`, `windowFactor = 20`. -/
theorem subhour_ttl_routing_witness :
    GetTTLTable 1800 20 tableNameFormat = { Table := sprintfD tableNameFormat 0, WindowSize := 1 } ∧
    (GetTTLTable 1800 20 tableNameFormat).Table = [109, 101, 116, 114, 105, 99, 95, 48] :=
  subhour_ttl_routing 1800 20 tableNameFormat (by decide) (by decide) (by decide)

/-- C7 counterexample: at `end = 4294967295` the search has
`end_month = 4294080000`, the top `uint32` month bucket; the loop's
`month += Month_sec` then wraps past `2^32` back to `1531904 ≤ end_month`
and the program emits row keys beyond the claimed progression, so the
claim as stated — the queried row keys are exactly the months
`startMonth..endMonth` — fails at this input. -/
theorem search_row_keys_counterexample :
    searchRowKeys [107] 4294080000 4294967295 ≠
      (List.range ((endMonth 4294967295 - startMonth 4294080000) / monthSec + 1)).map
        (fun i => rowKey [107] (startMonth 4294080000 + monthSec * i)) := by
  intro h
  have h1 : startMonth 4294080000 = 4294080000 := by decide
  have h2 : endMonth 4294967295 = 4294080000 := by decide
  rw [searchRowKeys, h1, h2] at h
  -- two unfoldings of the loop: the appended month wraps to 1531904,
  -- which is still ≤ end_month, so a second row key is emitted
  rw [show (4294967296 : Nat) = 4294967295 + 1 from rfl,
    rowKeysLoop_step [107] 4294967295 (by omega)] at h
  rw [show ((4294080000 + monthSec) % 4294967296 : Nat) = 1531904 from by decide] at h
  rw [show (4294967295 : Nat) = 4294967294 + 1 from rfl,
    rowKeysLoop_step [107] 4294967294 (by decide)] at h
  -- but the claimed progression at this input is a single row key
  have hlen := congrArg List.length h
  simp only [List.length_cons, List.length_map, List.length_range, monthSec] at hlen
  omega

/-- C7 (amended): provided `end ≤ 4294080000` — which keeps the loop's
`uint32` month counter from wrapping — the queried months of a search
run from `startMonth = start - start mod Month_sec` to
`endMonth = (end-1) - (end-1) mod Month_sec` in `Month_sec` steps, each
contributing row key `"{key}_{month/Month_sec}"`; in particular
`key = "foo"`, `start = 5222000`, `end = 7555000` yields
`startMonth = 4838400`, `endMonth = 7257600` and exactly the row keys
`["foo_2", "foo_3"]`. -/
theorem search_row_keys (key : List Nat) (start e : Nat) (h : start < e)
    (hcap : e ≤ 4294080000) :
    searchRowKeys key start e =
      (List.range ((endMonth e - startMonth start) / monthSec + 1)).map
        (fun i => rowKey key (startMonth start + monthSec * i)) ∧
    startMonth 5222000 = 4838400 ∧ endMonth 7555000 = 7257600 ∧
    searchRowKeys [102, 111, 111] 5222000 7555000 =
      [[102, 111, 111, 95, 50], [102, 111, 111, 95, 51]] := by
  have hM : monthSec = 2419200 := rfl
  refine ⟨?_, by decide, by decide, ?_⟩
  · have hle : startMonth start ≤ endMonth e := by
      unfold startMonth endMonth
      rw [hM]
      omega
    have hcap2 : endMonth e + monthSec < 4294967296 := by
      unfold endMonth
      rw [hM]
      omega
    have hfuel : (endMonth e - startMonth start) / monthSec + 1 ≤ 4294967296 := by
      unfold startMonth endMonth
      rw [hM]
      omega
    exact rowKeysLoop_eq _ 4294967296 _ _ key hle rfl hcap2 hfuel
  · have h1 : startMonth 5222000 = 4838400 := by decide
    have h2 : endMonth 7555000 = 7257600 := by decide
    unfold searchRowKeys
    rw [h1, h2, rowKeysLoop_eq 1 4294967296 4838400 7257600 [102, 111, 111]
      (by decide) (by decide) (by decide) (by decide)]
    decide

/-- Witness for C7: the concrete scenario S2 row keys. -/
theorem search_row_keys_witness :
    searchRowKeys [102, 111, 111] 5222000 7555000 =
      [[102, 111, 111, 95, 50], [102, 111, 111, 95, 51]] :=
  (search_row_keys [102, 111, 111] 5222000 7555000 (by decide) (by decide)).2.2.2

/-! ### The writer retry loop -/

/-- The code's capped backoff is `min (100 * attempts) 2000`. -/
theorem writeBackoff_min (a : Nat) : writeBackoff a = min (100 * a) 2000 := by
  simp only [writeBackoff]
  split <;> omega

/-- Shape of the retry-loop trace: one `(fail, sleep)` pair per injected
failure — sleeping `writeBackoff` of the failures recorded before the
failing attempt — then exactly the success events. -/
theorem processCWR_eq : ∀ failures attempts t0,
    processChunkWriteRequest t0 attempts failures =
      ((List.range failures).map
        (fun k => [WEvent.insertAttemptFail, WEvent.sleep (writeBackoff (attempts + k))])).flatten
      ++ [WEvent.insertOk, WEvent.syncChunkSaveState t0, WEvent.sendPersistMessage t0] := by
  intro failures
  induction failures with
  | zero => intro a t0; simp [processChunkWriteRequest]
  | succ n ih =>
    intro a t0
    have hstep : processChunkWriteRequest t0 a (n + 1) =
        WEvent.insertAttemptFail :: WEvent.sleep (writeBackoff a) ::
          processChunkWriteRequest t0 (a + 1) n := rfl
    rw [hstep, ih (a + 1) t0]
    conv_rhs => rw [List.range_succ_eq_map]
    simp only [List.map_cons, List.map_map, List.flatten_cons, List.cons_append,
      List.nil_append, List.append_assoc, Nat.add_zero]
    refine List.cons_eq_cons.mpr ⟨rfl, List.cons_eq_cons.mpr ⟨rfl, ?_⟩⟩
    congr 2
    apply List.map_congr_left
    intro k _
    simp only [Function.comp_apply, Nat.succ_eq_add_one]
    have h' : a + 1 + k = a + (k + 1) := by omega
    rw [h']

/-- The retry loop performs exactly one successful insert. -/
theorem processCWR_count_insertOk : ∀ failures attempts t0,
    (processChunkWriteRequest t0 attempts failures).count WEvent.insertOk = 1 := by
  intro failures
  induction failures with
  | zero => intro a t0; simp [processChunkWriteRequest, List.count_cons]
  | succ n ih =>
    intro a t0
    have hstep : processChunkWriteRequest t0 a (n + 1) =
        WEvent.insertAttemptFail :: WEvent.sleep (writeBackoff a) ::
          processChunkWriteRequest t0 (a + 1) n := rfl
    rw [hstep]
    simp [List.count_cons, ih (a + 1) t0]

/-- The retry loop calls `SyncChunkSaveState(T0)` exactly once. -/
theorem processCWR_count_sync : ∀ failures attempts t0,
    (processChunkWriteRequest t0 attempts failures).count (WEvent.syncChunkSaveState t0) = 1 := by
  intro failures
  induction failures with
  | zero => intro a t0; simp [processChunkWriteRequest, List.count_cons]
  | succ n ih =>
    intro a t0
    have hstep : processChunkWriteRequest t0 a (n + 1) =
        WEvent.insertAttemptFail :: WEvent.sleep (writeBackoff a) ::
          processChunkWriteRequest t0 (a + 1) n := rfl
    rw [hstep]
    simp [List.count_cons, ih (a + 1) t0]

/-- The backoff sleeps of the retry loop, in order. -/
theorem processCWR_sleeps : ∀ failures attempts t0,
    sleepsOf (processChunkWriteRequest t0 attempts failures) =
      (List.range failures).map (fun k => writeBackoff (attempts + k)) := by
  intro failures
  induction failures with
  | zero => intro a t0; simp [processChunkWriteRequest, sleepsOf]
  | succ n ih =>
    intro a t0
    have hstep : processChunkWriteRequest t0 a (n + 1) =
        WEvent.insertAttemptFail :: WEvent.sleep (writeBackoff a) ::
          processChunkWriteRequest t0 (a + 1) n := rfl
    rw [hstep]
    simp only [sleepsOf, List.filterMap_cons] at ih ⊢
    rw [ih (a + 1) t0]
    conv_rhs => rw [List.range_succ_eq_map]
    simp only [List.map_cons, List.map_map, Nat.add_zero]
    refine List.cons_eq_cons.mpr ⟨rfl, ?_⟩
    apply List.map_congr_left
    intro k _
    simp only [Function.comp_apply, Nat.succ_eq_add_one]
    congr 1
    omega

/-- C1: for any finite number of injected insert failures before the
first success, the writer worker's trace consists of one
`(fail, sleep min(100ms·attempts, 2000ms))` pair per failure — where
`attempts` counts the failures recorded before the failing attempt —
followed by exactly one successful insert, exactly one
`SyncChunkSaveState(T0)` and the persist notification; in particular the
request is never discarded: it ends in exactly one success and one save
acknowledgement. -/
theorem writer_retry_durability (t0 failures : Nat) :
    writerTrace t0 failures =
      ((List.range failures).map
        (fun attempts => [WEvent.insertAttemptFail, WEvent.sleep (min (100 * attempts) 2000)])).flatten
      ++ [WEvent.insertOk, WEvent.syncChunkSaveState t0, WEvent.sendPersistMessage t0] ∧
    (writerTrace t0 failures).count WEvent.insertOk = 1 ∧
    (writerTrace t0 failures).count (WEvent.syncChunkSaveState t0) = 1 ∧
    sleepsOf (writerTrace t0 failures) =
      (List.range failures).map (fun attempts => min (100 * attempts) 2000) := by
  refine ⟨?_, processCWR_count_insertOk failures 0 t0,
    processCWR_count_sync failures 0 t0, ?_⟩
  · rw [writerTrace, processCWR_eq]
    simp [writeBackoff_min]
  · rw [writerTrace, processCWR_sleeps]
    simp [writeBackoff_min]

/-! ### Read cancellation -/

/-- C9: a search whose context is canceled before its request is
dequeued returns an empty result with no error, and the worker never
executes the store query. -/
theorem read_cancellation (waitDuration omitReadTimeout : Nat)
    (storeRows : List (Nat × List Nat)) :
    searchViaWorker true waitDuration omitReadTimeout storeRows = .ok [] ∧
    (processReadRequest true waitDuration omitReadTimeout storeRows).executedQuery = false :=
  ⟨rfl, rfl⟩

/-! ### Search result ordering -/

/-- A successfully decoded generator keeps the row's timestamp as its
`T0`. -/
theorem NewGen_T0 {b : List Nat} {ts : Nat} {g : IterGen} (h : NewGen b ts = .ok g) :
    g.T0 = ts := by
  cases b with
  | nil => simp [NewGen] at h
  | cons f rest =>
    cases rest with
    | nil => simp [NewGen] at h
    | cons s r =>
      simp only [NewGen] at h
      split_ifs at h with h1 h2
      cases Except.ok.inj h
      rfl

/-- A successful scan keeps each row's timestamp, in scan order. -/
theorem scanRows_map_fst : ∀ rows l, scanRows rows = .ok l →
    l.map IterGen.T0 = rows.map Prod.fst := by
  intro rows
  induction rows with
  | nil =>
    intro l h
    cases Except.ok.inj h
    rfl
  | cons r rows ih =>
    intro l h
    obtain ⟨ts, b⟩ := r
    simp only [scanRows] at h
    by_cases hlen : b.length < 2
    · rw [if_pos hlen] at h; exact absurd h (by simp)
    · rw [if_neg hlen] at h
      cases hN : NewGen b ts with
      | error e => rw [hN] at h; exact absurd h (by simp)
      | ok g =>
        rw [hN] at h
        cases hS : scanRows rows with
        | error e => rw [hS] at h; exact absurd h (by simp)
        | ok tail =>
          rw [hS] at h
          cases Except.ok.inj h
          simp only [List.map_cons]
          rw [NewGen_T0 hN, ih tail hS]

/-- A successful scan equals the `filterMap` of the per-row decode. -/
theorem scanRows_eq_filterMap : ∀ rows l, scanRows rows = .ok l →
    l = rows.filterMap decodeRow := by
  intro rows
  induction rows with
  | nil =>
    intro l h
    cases Except.ok.inj h
    rfl
  | cons r rows ih =>
    intro l h
    obtain ⟨ts, b⟩ := r
    simp only [scanRows] at h
    by_cases hlen : b.length < 2
    · rw [if_pos hlen] at h; exact absurd h (by simp)
    · rw [if_neg hlen] at h
      cases hN : NewGen b ts with
      | error e => rw [hN] at h; exact absurd h (by simp)
      | ok g =>
        rw [hN] at h
        cases hS : scanRows rows with
        | error e => rw [hS] at h; exact absurd h (by simp)
        | ok tail =>
          rw [hS] at h
          cases Except.ok.inj h
          have hd : decodeRow (ts, b) = some g := by
            simp only [decodeRow]
            rw [if_neg hlen, hN]
          simp only [List.filterMap_cons, hd]
          rw [ih tail hS]

/-- A successful `searchProcessRows` factors through `scanRows` and the
sort. -/
theorem searchProcessRows_ok {rows : List (Nat × List Nat)} {itgens : List IterGen}
    (h : searchProcessRows rows = .ok itgens) :
    ∃ l, scanRows rows = .ok l ∧ itgens = sortItgensAsc l := by
  unfold searchProcessRows at h
  cases hS : scanRows rows with
  | error e => rw [hS] at h; exact absurd h (by simp)
  | ok l =>
    rw [hS] at h
    exact ⟨l, rfl, (Except.ok.inj h).symm⟩

/-- A successful search's generators are pairwise strictly increasing in
`T0`, given distinct row timestamps. -/
theorem searchProcessRows_pairwise {rows : List (Nat × List Nat)} {itgens : List IterGen}
    (hnodup : (rows.map Prod.fst).Nodup) (h : searchProcessRows rows = .ok itgens) :
    List.Pairwise ltT0 itgens := by
  obtain ⟨l, hl, rfl⟩ := searchProcessRows_ok h
  have hmap : l.map IterGen.T0 = rows.map Prod.fst := scanRows_map_fst rows l hl
  have hnodup_l : (l.map IterGen.T0).Nodup := hmap ▸ hnodup
  have hsorted : List.Sorted leT0 (sortItgensAsc l) := List.sorted_insertionSort leT0 l
  have hperm_sort : (sortItgensAsc l).Perm l := List.perm_insertionSort leT0 l
  have hnodup_sorted : ((sortItgensAsc l).map IterGen.T0).Nodup :=
    ((hperm_sort.map IterGen.T0).nodup_iff).mpr hnodup_l
  have hne : List.Pairwise (fun a b : IterGen => a.T0 ≠ b.T0) (sortItgensAsc l) :=
    List.pairwise_map.mp hnodup_sorted
  exact (hsorted.and hne).imp fun h => Nat.lt_of_le_of_ne h.1 h.2

/-- C8: a successful search returns generators strictly increasing in
`T0`, and the result does not depend on the order in which the store's
rows were scanned (the hypothesis that row timestamps are pairwise
distinct reflects the store's `(key, ts)` primary key). -/
theorem search_ordering (rows rows2 : List (Nat × List Nat)) (itgens itgens2 : List IterGen)
    (hnodup : (rows.map Prod.fst).Nodup)
    (h1 : searchProcessRows rows = .ok itgens)
    (hperm : rows.Perm rows2)
    (h2 : searchProcessRows rows2 = .ok itgens2) :
    List.Pairwise ltT0 itgens ∧ itgens2 = itgens := by
  have hpair : List.Pairwise ltT0 itgens := searchProcessRows_pairwise hnodup h1
  have hnodup2 : (rows2.map Prod.fst).Nodup := ((hperm.map Prod.fst).nodup_iff).mp hnodup
  have hpair2 : List.Pairwise ltT0 itgens2 := searchProcessRows_pairwise hnodup2 h2
  obtain ⟨l, hl, rfl⟩ := searchProcessRows_ok h1
  obtain ⟨l2, hl2, rfl⟩ := searchProcessRows_ok h2
  refine ⟨hpair, ?_⟩
  have hfm : l = rows.filterMap decodeRow := scanRows_eq_filterMap rows l hl
  have hfm2 : l2 = rows2.filterMap decodeRow := scanRows_eq_filterMap rows2 l2 hl2
  have hperm_l : l.Perm l2 := by
    rw [hfm, hfm2]
    exact hperm.filterMap decodeRow
  have hperm_res : (sortItgensAsc l2).Perm (sortItgensAsc l) :=
    ((List.perm_insertionSort leT0 l2).trans hperm_l.symm).trans
      (List.perm_insertionSort leT0 l).symm
  exact List.eq_of_perm_of_sorted hperm_res hpair2 hpair

/-- Witness for C8: two rows scanned in either order yield the same
`T0`-ascending generators. -/
theorem search_ordering_witness :
    List.Pairwise ltT0 [IterGen.mk [1, 0, 9] 604800, IterGen.mk [1, 0, 7] 1209600] ∧
    ([IterGen.mk [1, 0, 9] 604800, IterGen.mk [1, 0, 7] 1209600] : List IterGen) =
      [IterGen.mk [1, 0, 9] 604800, IterGen.mk [1, 0, 7] 1209600] :=
  search_ordering [(1209600, [1, 0, 7]), (604800, [1, 0, 9])]
    [(604800, [1, 0, 9]), (1209600, [1, 0, 7])]
    [IterGen.mk [1, 0, 9] 604800, IterGen.mk [1, 0, 7] 1209600]
    [IterGen.mk [1, 0, 9] 604800, IterGen.mk [1, 0, 7] 1209600]
    (by decide) (by rfl) (by decide) (by rfl)

/-! ### MessagePack primitive round-trips -/

/-- `beBytes k` emits exactly `k` bytes. -/
theorem beBytes_length : ∀ k n, (msgp.beBytes k n).length = k := by
  intro k
  induction k with
  | zero => intro n; rfl
  | succ j ih => intro n; simp [msgp.beBytes, ih]

/-- Reading back big-endian bytes recovers the value modulo `256^k`. -/
theorem beVal_beBytes : ∀ k n, msgp.beVal (msgp.beBytes k n) = n % 256 ^ k := by
  intro k
  induction k with
  | zero => intro n; simp [msgp.beBytes, msgp.beVal, Nat.mod_one]
  | succ j ih =>
    intro n
    simp only [msgp.beBytes, msgp.beVal, beBytes_length, ih]
    rw [pow_succ, Nat.mod_mul]
    ring

/-- `takeN` splits an append at the marked length. -/
theorem takeN_append (xs rest : List Nat) :
    msgp.takeN xs.length (xs ++ rest) = some (xs, rest) := by
  unfold msgp.takeN
  rw [if_pos (by simp), List.take_left, List.drop_left]

/-- `readN` undoes `beBytes` on values in range. -/
theorem readN_append {k n : Nat} (h : n < 256 ^ k) (rest : List Nat) :
    msgp.readN k (msgp.beBytes k n ++ rest) = some (n, rest) := by
  unfold msgp.readN
  have h1 : msgp.takeN k (msgp.beBytes k n ++ rest) = some (msgp.beBytes k n, rest) := by
    have h2 := takeN_append (msgp.beBytes k n) rest
    rwa [beBytes_length] at h2
  rw [h1]
  show some (msgp.beVal (msgp.beBytes k n), rest) = some (n, rest)
  rw [beVal_beBytes, Nat.mod_eq_of_lt h]

/-- The two's-complement image is bounded by `2^k`. -/
theorem int2c_lt (k : Nat) (i : Int) : msgp.int2c k i < 2 ^ k := by
  unfold msgp.int2c
  have h : (0:Int) < 2 ^ k := by positivity
  have h1 := Int.emod_nonneg i (ne_of_gt h)
  have h2 := Int.emod_lt_of_pos i h
  have h3 : ((2 ^ k : Nat) : Int) = 2 ^ k := by push_cast; ring
  omega

/-- Decoding undoes the `(j+1)`-bit two's-complement encoding on its
value range. -/
theorem dec2c_int2c {j : Nat} {i : Int} (hlo : -(2 ^ j) ≤ i) (hhi : i < 2 ^ j) :
    msgp.dec2c (j + 1) (msgp.int2c (j + 1) i) = i := by
  unfold msgp.int2c msgp.dec2c
  have h : (0:Int) < 2 ^ (j + 1) := by positivity
  have h1 := Int.emod_nonneg i (ne_of_gt h)
  have h2 := Int.emod_lt_of_pos i h
  have h3 : ((2 ^ (j + 1) : Nat) : Int) = 2 ^ (j + 1) := by push_cast; ring
  have h4 : ((2 ^ j : Nat) : Int) = 2 ^ j := by push_cast; ring
  have h5 : (2:Int) ^ (j + 1) = 2 * 2 ^ j := by ring
  have h6 : (2:Nat) ^ (j + 1) = 2 * 2 ^ j := by ring
  have h8 : i % 2 ^ (j + 1) = i ∨ i % 2 ^ (j + 1) = i + 2 ^ (j + 1) := by
    rcases le_or_lt 0 i with hpos | hneg
    · left
      exact Int.emod_eq_of_lt hpos (by omega)
    · right
      have ha : (i + 2 ^ (j + 1)) % 2 ^ (j + 1) = i % 2 ^ (j + 1) := by
        have hb1 := Int.add_mul_emod_self_left i (2 ^ (j + 1)) 1
        simp only [mul_one] at hb1
        exact hb1
      have hb : (0:Int) ≤ i + 2 ^ (j + 1) := by omega
      have hc : i + 2 ^ (j + 1) < 2 ^ (j + 1) := by omega
      have hd := Int.emod_eq_of_lt hb hc
      omega
  have h7 : (j + 1) - 1 = j := rfl
  rw [h7]
  split_ifs with hc <;> omega

/-- Reading back an appended boolean. -/
theorem ReadBool_append (b : Bool) (rest : List Nat) :
    msgp.ReadBoolBytes (msgp.AppendBool b ++ rest) = some (b, rest) := by
  cases b <;> rfl

/-- Reading back an appended array header (sizes up to `uint32`). -/
theorem ReadArrayHeader_append {n : Nat} (h : n < 2 ^ 32) (rest : List Nat) :
    msgp.ReadArrayHeaderBytes (msgp.AppendArrayHeader n ++ rest) = some (n, rest) := by
  unfold msgp.AppendArrayHeader
  split_ifs with h1 h2
  · simp only [List.cons_append, List.nil_append, msgp.ReadArrayHeaderBytes]
    rw [if_pos (by omega)]
    exact congrArg some (by simp [Nat.add_sub_cancel_left])
  · simp only [List.cons_append, msgp.ReadArrayHeaderBytes, if_true]
    exact readN_append (by omega) rest
  · simp only [List.cons_append, msgp.ReadArrayHeaderBytes, if_true]
    exact readN_append (by omega) rest

/-- Reading back an appended map header (sizes up to `uint32`). -/
theorem ReadMapHeader_append {n : Nat} (h : n < 2 ^ 32) (rest : List Nat) :
    msgp.ReadMapHeaderBytes (msgp.AppendMapHeader n ++ rest) = some (n, rest) := by
  unfold msgp.AppendMapHeader
  split_ifs with h1 h2
  · simp only [List.cons_append, List.nil_append, msgp.ReadMapHeaderBytes]
    rw [if_pos (by omega)]
    exact congrArg some (by simp [Nat.add_sub_cancel_left])
  · simp only [List.cons_append, msgp.ReadMapHeaderBytes, if_true]
    exact readN_append (by omega) rest
  · simp only [List.cons_append, msgp.ReadMapHeaderBytes, if_true]
    exact readN_append (by omega) rest

/-- Reading back an appended string (lengths up to `uint32`). -/
theorem ReadString_append {s : List Nat} (h : s.length < 2 ^ 32) (rest : List Nat) :
    msgp.ReadStringBytes (msgp.AppendString s ++ rest) = some (s, rest) := by
  unfold msgp.AppendString
  split_ifs with h1 h2 h3
  · -- fixstr
    simp only [List.cons_append, msgp.ReadStringBytes]
    rw [if_pos (by omega)]
    have ht : 160 + s.length - 160 = s.length := by omega
    rw [ht]
    exact takeN_append s rest
  · -- str8
    simp only [List.cons_append, msgp.ReadStringBytes, if_true]
    exact takeN_append s rest
  · -- str16
    simp only [List.cons_append, List.append_assoc, msgp.ReadStringBytes, if_true]
    have hr : msgp.readN 2 (msgp.beBytes 2 s.length ++ (s ++ rest)) =
        some (s.length, s ++ rest) := readN_append (by omega) (s ++ rest)
    rw [hr]
    exact takeN_append s rest
  · -- str32
    simp only [List.cons_append, List.append_assoc, msgp.ReadStringBytes, if_true]
    have hr : msgp.readN 4 (msgp.beBytes 4 s.length ++ (s ++ rest)) =
        some (s.length, s ++ rest) := readN_append (by omega) (s ++ rest)
    rw [hr]
    exact takeN_append s rest

/-- The 8-bit two's-complement image of a small negative integer. -/
theorem int2c8_neg {i : Int} (h1 : -128 ≤ i) (h2 : i < 0) :
    (msgp.int2c 8 i : Int) = i + 256 := by
  unfold msgp.int2c
  omega

/-- Reading back an appended int64 (the full signed 64-bit range). -/
theorem ReadInt64_append {i : Int} (hlo : -(2 ^ 63) ≤ i) (hhi : i < 2 ^ 63) (rest : List Nat) :
    msgp.ReadInt64Bytes (msgp.AppendInt64 i ++ rest) = some (i, rest) := by
  unfold msgp.AppendInt64
  split_ifs with h1 h2 h3 h4 h5 h6 h7 h8
  · -- positive fixint
    simp only [List.cons_append, List.nil_append, msgp.ReadInt64Bytes]
    rw [if_pos (by omega)]
    simp only [Option.some.injEq, Prod.mk.injEq]
    exact ⟨by omega, trivial⟩
  · -- int16, positive
    simp only [List.cons_append, msgp.ReadInt64Bytes, if_true]
    have hr := readN_append (show msgp.int2c 16 i < 256 ^ 2 by
      have := int2c_lt 16 i; omega) rest
    rw [hr]
    show some (msgp.dec2c 16 (msgp.int2c 16 i), rest) = some (i, rest)
    rw [dec2c_int2c (by omega) (by omega)]
  · -- int32, positive
    simp only [List.cons_append, msgp.ReadInt64Bytes, if_true]
    have hr := readN_append (show msgp.int2c 32 i < 256 ^ 4 by
      have := int2c_lt 32 i; omega) rest
    rw [hr]
    show some (msgp.dec2c 32 (msgp.int2c 32 i), rest) = some (i, rest)
    rw [dec2c_int2c (by omega) (by omega)]
  · -- int64, positive
    simp only [List.cons_append, msgp.ReadInt64Bytes, if_true]
    have hr := readN_append (show msgp.int2c 64 i < 256 ^ 8 by
      have := int2c_lt 64 i; omega) rest
    rw [hr]
    show some (msgp.dec2c 64 (msgp.int2c 64 i), rest) = some (i, rest)
    rw [dec2c_int2c (by omega) (by omega)]
  · -- negative fixint
    simp only [List.cons_append, List.nil_append, msgp.ReadInt64Bytes]
    have hv : (msgp.int2c 8 i : Int) = i + 256 := int2c8_neg (by omega) (by omega)
    rw [if_neg (by omega), if_pos (by omega)]
    simp only [Option.some.injEq, Prod.mk.injEq]
    exact ⟨by omega, trivial⟩
  · -- int8, negative
    simp only [List.cons_append, List.nil_append, msgp.ReadInt64Bytes, if_true]
    show some (msgp.dec2c 8 (msgp.int2c 8 i), rest) = some (i, rest)
    rw [dec2c_int2c (by omega) (by omega)]
  · -- int16, negative
    simp only [List.cons_append, msgp.ReadInt64Bytes, if_true]
    have hr := readN_append (show msgp.int2c 16 i < 256 ^ 2 by
      have := int2c_lt 16 i; omega) rest
    rw [hr]
    show some (msgp.dec2c 16 (msgp.int2c 16 i), rest) = some (i, rest)
    rw [dec2c_int2c (by omega) (by omega)]
  · -- int32, negative
    simp only [List.cons_append, msgp.ReadInt64Bytes, if_true]
    have hr := readN_append (show msgp.int2c 32 i < 256 ^ 4 by
      have := int2c_lt 32 i; omega) rest
    rw [hr]
    show some (msgp.dec2c 32 (msgp.int2c 32 i), rest) = some (i, rest)
    rw [dec2c_int2c (by omega) (by omega)]
  · -- int64, negative
    simp only [List.cons_append, msgp.ReadInt64Bytes, if_true]
    have hr := readN_append (show msgp.int2c 64 i < 256 ^ 8 by
      have := int2c_lt 64 i; omega) rest
    rw [hr]
    show some (msgp.dec2c 64 (msgp.int2c 64 i), rest) = some (i, rest)
    rw [dec2c_int2c (by omega) (by omega)]

/-- Reading back an appended int (Go `int` is 64-bit). -/
theorem ReadInt_append {i : Int} (hlo : -(2 ^ 63) ≤ i) (hhi : i < 2 ^ 63) (rest : List Nat) :
    msgp.ReadIntBytes (msgp.AppendInt i ++ rest) = some (i, rest) :=
  ReadInt64_append hlo hhi rest

/-- Reading back a fixstr-encoded map key. -/
theorem readKey_fixstr (s X : List Nat) (h : s.length ≤ 31) :
    msgp.ReadMapKeyZC ((160 + s.length) :: (s ++ X)) = some (s, X) := by
  unfold msgp.ReadMapKeyZC
  simp only [msgp.ReadStringBytes]
  rw [if_pos (by omega), show 160 + s.length - 160 = s.length from by omega]
  exact takeN_append s X

/-- Reading back the literal `"Paths"` key. -/
theorem readKey_Paths (X : List Nat) :
    msgp.ReadMapKeyZC (165 :: 80 :: 97 :: 116 :: 104 :: 115 :: X) =
      some ([80, 97, 116, 104, 115], X) :=
  readKey_fixstr [80, 97, 116, 104, 115] X (by decide)

/-- Reading back the literal `"Propagate"` key. -/
theorem readKey_Propagate (X : List Nat) :
    msgp.ReadMapKeyZC (169 :: 80 :: 114 :: 111 :: 112 :: 97 :: 103 :: 97 :: 116 :: 101 :: X) =
      some ([80, 114, 111, 112, 97, 103, 97, 116, 101], X) :=
  readKey_fixstr [80, 114, 111, 112, 97, 103, 97, 116, 101] X (by decide)

/-- Reading back the literal `"Count"` key. -/
theorem readKey_Count (X : List Nat) :
    msgp.ReadMapKeyZC (165 :: 67 :: 111 :: 117 :: 110 :: 116 :: X) =
      some ([67, 111, 117, 110, 116], X) :=
  readKey_fixstr [67, 111, 117, 110, 116] X (by decide)

/-- Reading back the literal `"Peers"` key. -/
theorem readKey_Peers (X : List Nat) :
    msgp.ReadMapKeyZC (165 :: 80 :: 101 :: 101 :: 114 :: 115 :: X) =
      some ([80, 101, 101, 114, 115], X) :=
  readKey_fixstr [80, 101, 101, 114, 115] X (by decide)

/-- Reading back the literal `"path"` key. -/
theorem readKey_path (X : List Nat) :
    msgp.ReadMapKeyZC (164 :: 112 :: 97 :: 116 :: 104 :: X) =
      some ([112, 97, 116, 104], X) :=
  readKey_fixstr [112, 97, 116, 104] X (by decide)

/-- Reading back the literal `"isLeaf"` key. -/
theorem readKey_isLeaf (X : List Nat) :
    msgp.ReadMapKeyZC (166 :: 105 :: 115 :: 76 :: 101 :: 97 :: 102 :: X) =
      some ([105, 115, 76, 101, 97, 102], X) :=
  readKey_fixstr [105, 115, 76, 101, 97, 102] X (by decide)

/-- Reading back the literal `"intervals"` key. -/
theorem readKey_intervals (X : List Nat) :
    msgp.ReadMapKeyZC (169 :: 105 :: 110 :: 116 :: 101 :: 114 :: 118 :: 97 :: 108 :: 115 :: X) =
      some ([105, 110, 116, 101, 114, 118, 97, 108, 115], X) :=
  readKey_fixstr [105, 110, 116, 101, 114, 118, 97, 108, 115] X (by decide)

/-- The string-array read loop undoes the encoder's string loop. -/
theorem readStrings_append : ∀ (ss : List (List Nat)) (rest : List Nat),
    (∀ s ∈ ss, s.length < 2 ^ 32) →
    readStrings ss.length ((ss.map msgp.AppendString).flatten ++ rest) = some (ss, rest) := by
  intro ss
  induction ss with
  | nil => intro rest _; rfl
  | cons s ss ih =>
    intro rest h
    have h1 := ReadString_append (h s (by simp)) ((ss.map msgp.AppendString).flatten ++ rest)
    have h2 := ih rest (fun x hx => h x (by simp [hx]))
    simp only [List.map_cons, List.flatten_cons, List.append_assoc, List.length_cons,
      readStrings, h1, h2]

/-- The int64-array read loop undoes the encoder's int loop. -/
theorem readInts_append : ∀ (iv : List Int) (rest : List Nat),
    (∀ i ∈ iv, int64Range i) →
    readInts iv.length ((iv.map msgp.AppendInt64).flatten ++ rest) = some (iv, rest) := by
  intro iv
  induction iv with
  | nil => intro rest _; rfl
  | cons i iv ih =>
    intro rest h
    have h1 := ReadInt64_append (h i (by simp)).1 (h i (by simp)).2
      ((iv.map msgp.AppendInt64).flatten ++ rest)
    have h2 := ih rest (fun x hx => h x (by simp [hx]))
    simp only [List.map_cons, List.flatten_cons, List.append_assoc, List.length_cons,
      readInts, h1, h2]

/-- The intervals read loop undoes the encoder's nested loop. -/
theorem readIntervals_append : ∀ (ivs : List (List Int)) (rest : List Nat),
    (∀ iv ∈ ivs, iv.length < 2 ^ 32 ∧ ∀ i ∈ iv, int64Range i) →
    readIntervals ivs.length
      ((ivs.map (fun iv => msgp.AppendArrayHeader iv.length ++
        (iv.map msgp.AppendInt64).flatten)).flatten ++ rest) = some (ivs, rest) := by
  intro ivs
  induction ivs with
  | nil => intro rest _; rfl
  | cons iv ivs ih =>
    intro rest h
    have h1 := fun tail => ReadArrayHeader_append (show iv.length < 2 ^ 32 from (h iv (by simp)).1) tail
    have h2 := fun tail => readInts_append iv tail (h iv (by simp)).2
    have h3 := ih rest (fun x hx => h x (by simp [hx]))
    simp only [List.map_cons, List.flatten_cons, List.append_assoc, List.length_cons,
      readIntervals, h1, h2, h3]

/-- The peer-map read loop undoes the encoder's pair loop. -/
theorem readPeers_append : ∀ (ps : List (List Nat × Int)) (rest : List Nat),
    (∀ p ∈ ps, p.1.length < 2 ^ 32 ∧ int64Range p.2) →
    readPeers ps.length
      ((ps.map (fun p => msgp.AppendString p.1 ++ msgp.AppendInt p.2)).flatten ++ rest) =
      some (ps, rest) := by
  intro ps
  induction ps with
  | nil => intro rest _; rfl
  | cons p ps ih =>
    intro rest h
    have h1 := fun tail => ReadString_append (show p.1.length < 2 ^ 32 from (h p (by simp)).1) tail
    have h2 := fun tail => ReadInt_append (h p (by simp)).2.1 (h p (by simp)).2.2 tail
    have h3 := ih rest (fun x hx => h x (by simp [hx]))
    simp only [List.map_cons, List.flatten_cons, List.append_assoc, List.length_cons,
      readPeers, h1, h2, h3]

/-- Round-trip for the tag-deletion request envelope. -/
theorem tagDelSeries_roundtrip (x : GraphiteTagDelSeries) (hv : x.Valid)
    (z0 : GraphiteTagDelSeries) (rest : List Nat) :
    GraphiteTagDelSeries.UnmarshalMsg z0 (x.MarshalMsg ++ rest) = some (x, rest) := by
  obtain ⟨hlen, hall⟩ := hv
  obtain ⟨paths, prop⟩ := x
  have hah := fun tail => ReadArrayHeader_append (show paths.length < 2 ^ 32 from hlen) tail
  have hrs := fun tail => readStrings_append paths tail hall
  have hb := fun tail => ReadBool_append prop tail
  simp only [GraphiteTagDelSeries.MarshalMsg, GraphiteTagDelSeries.UnmarshalMsg,
    List.cons_append, List.append_assoc, List.nil_append]
  norm_num [msgp.ReadMapHeaderBytes, GraphiteTagDelSeries.unmarshalFields,
    readKey_Paths, readKey_Propagate, hah, hrs, hb]

/-- A fixmap header byte for two entries reads back as `2`. -/
theorem readMapHeader130 (X : List Nat) : msgp.ReadMapHeaderBytes (130 :: X) = some (2, X) := rfl

/-- A fixmap header byte for three entries reads back as `3`. -/
theorem readMapHeader131 (X : List Nat) : msgp.ReadMapHeaderBytes (131 :: X) = some (3, X) := rfl

/-- Round-trip for the tag-deletion response envelope. -/
theorem tagDelSeriesResp_roundtrip (x : GraphiteTagDelSeriesResp) (hv : x.Valid)
    (z0 : GraphiteTagDelSeriesResp) (rest : List Nat) :
    GraphiteTagDelSeriesResp.UnmarshalMsg z0 (x.MarshalMsg ++ rest) = some (x, rest) := by
  obtain ⟨hcount, hlen, hall⟩ := hv
  obtain ⟨count, peers⟩ := x
  have hi := fun tail => ReadInt_append (show -(2 ^ 63) ≤ count from hcount.1)
    (show count < 2 ^ 63 from hcount.2) tail
  have hmh := fun tail => ReadMapHeader_append (show peers.length < 2 ^ 32 from hlen) tail
  have hps := fun tail => readPeers_append peers tail hall
  simp only [GraphiteTagDelSeriesResp.MarshalMsg, GraphiteTagDelSeriesResp.UnmarshalMsg,
    List.cons_append, List.append_assoc, List.nil_append]
  norm_num [readMapHeader130, GraphiteTagDelSeriesResp.unmarshalFields,
    readKey_Count, readKey_Peers, hi, hmh, hps]

/-- Round-trip for one series-metadata entry. -/
theorem seriesPickleItem_roundtrip (x : SeriesPickleItem) (hv : x.Valid)
    (z0 : SeriesPickleItem) (rest : List Nat) :
    SeriesPickleItem.UnmarshalMsg z0 (x.MarshalMsg ++ rest) = some (x, rest) := by
  obtain ⟨hpath, hlen, hall⟩ := hv
  obtain ⟨path, leaf, ivs⟩ := x
  have hs := fun tail => ReadString_append (show path.length < 2 ^ 32 from hpath) tail
  have hb := fun tail => ReadBool_append leaf tail
  have hah := fun tail => ReadArrayHeader_append (show ivs.length < 2 ^ 32 from hlen) tail
  have hivs := fun tail => readIntervals_append ivs tail hall
  simp only [SeriesPickleItem.MarshalMsg, SeriesPickleItem.UnmarshalMsg,
    List.cons_append, List.append_assoc, List.nil_append]
  norm_num [readMapHeader131, SeriesPickleItem.unmarshalFields,
    readKey_path, readKey_isLeaf, readKey_intervals, hs, hb, hah, hivs]

/-- The item read loop undoes the encoder's item loop. -/
theorem readItems_append : ∀ (its : List SeriesPickleItem) (rest : List Nat),
    (∀ it ∈ its, it.Valid) →
    readItems its.length ((its.map SeriesPickleItem.MarshalMsg).flatten ++ rest) =
      some (its, rest) := by
  intro its
  induction its with
  | nil => intro rest _; rfl
  | cons it its ih =>
    intro rest h
    have h1 := seriesPickleItem_roundtrip it (h it (by simp)) ⟨[], false, []⟩
      ((its.map SeriesPickleItem.MarshalMsg).flatten ++ rest)
    have h2 := ih rest (fun x hx => h x (by simp [hx]))
    simp only [List.map_cons, List.flatten_cons, List.append_assoc, List.length_cons,
      readItems, h1, h2]

/-- Round-trip for a series-metadata collection. -/
theorem seriesPickle_roundtrip (x : SeriesPickle) (hv : x.Valid)
    (z0 : SeriesPickle) (rest : List Nat) :
    SeriesPickle.UnmarshalMsg z0 (x.MarshalMsg ++ rest) = some (x, rest) := by
  obtain ⟨hlen, hall⟩ := hv
  have hah := fun tail => ReadArrayHeader_append (show x.length < 2 ^ 32 from hlen) tail
  have hits := fun tail => readItems_append x tail hall
  simp only [SeriesPickle.MarshalMsg, SeriesPickle.UnmarshalMsg, List.append_assoc,
    hah, hits]

/-- C2: for every valid envelope value of the four envelope types —
tag-deletion request, tag-deletion response, series-metadata entry and
series-metadata collection — decoding the bytes produced by encoding the
value yields the value back (with no bytes left over, from any starting
decoder state). -/
theorem envelope_roundtrip :
    (∀ (x z0 : GraphiteTagDelSeries), x.Valid →
      GraphiteTagDelSeries.UnmarshalMsg z0 x.MarshalMsg = some (x, [])) ∧
    (∀ (x z0 : GraphiteTagDelSeriesResp), x.Valid →
      GraphiteTagDelSeriesResp.UnmarshalMsg z0 x.MarshalMsg = some (x, [])) ∧
    (∀ (x z0 : SeriesPickleItem), x.Valid →
      SeriesPickleItem.UnmarshalMsg z0 x.MarshalMsg = some (x, [])) ∧
    (∀ (x z0 : SeriesPickle), x.Valid →
      SeriesPickle.UnmarshalMsg z0 x.MarshalMsg = some (x, [])) := by
  refine ⟨fun x z0 hv => ?_, fun x z0 hv => ?_, fun x z0 hv => ?_, fun x z0 hv => ?_⟩
  · have h := tagDelSeries_roundtrip x hv z0 []
    simpa using h
  · have h := tagDelSeriesResp_roundtrip x hv z0 []
    simpa using h
  · have h := seriesPickleItem_roundtrip x hv z0 []
    simpa using h
  · have h := seriesPickle_roundtrip x hv z0 []
    simpa using h

/-- Witness for C2: concrete round-trips for all four envelope types. -/
theorem envelope_roundtrip_witness :
    GraphiteTagDelSeries.UnmarshalMsg ⟨[], false⟩
      (GraphiteTagDelSeries.MarshalMsg ⟨[[104, 105]], true⟩) = some (⟨[[104, 105]], true⟩, []) ∧
    GraphiteTagDelSeriesResp.UnmarshalMsg ⟨0, []⟩
      (GraphiteTagDelSeriesResp.MarshalMsg ⟨-7, [([112, 49], 3)]⟩) =
        some (⟨-7, [([112, 49], 3)]⟩, []) ∧
    SeriesPickleItem.UnmarshalMsg ⟨[], false, []⟩
      (SeriesPickleItem.MarshalMsg ⟨[97], true, [[0, 60]]⟩) =
        some (⟨[97], true, [[0, 60]]⟩, []) ∧
    SeriesPickle.UnmarshalMsg []
      (SeriesPickle.MarshalMsg [⟨[97], true, [[0, 60]]⟩]) =
        some ([⟨[97], true, [[0, 60]]⟩], []) :=
  ⟨envelope_roundtrip.1 ⟨[[104, 105]], true⟩ ⟨[], false⟩ (by decide),
   envelope_roundtrip.2.1 ⟨-7, [([112, 49], 3)]⟩ ⟨0, []⟩ (by decide),
   envelope_roundtrip.2.2.1 ⟨[97], true, [[0, 60]]⟩ ⟨[], false, []⟩ (by decide),
   envelope_roundtrip.2.2.2 [⟨[97], true, [[0, 60]]⟩] [] (by decide)⟩
